import Mathlib

/-! Shallow embedding of the transaction-extraction core of
`src/main.py` (pdf-bank-extractor).  Strings are modelled as
`List Char`.  The regular expressions of the source are embedded as
executable matchers with Python `re` semantics: leftmost match,
greedy quantifiers with backtracking, and non-overlapping `finditer`
that resumes scanning at the end of the previous match. -/

/-- Whitespace characters recognised by Python's `str.strip` and the
regex class in the source's amount pattern (ASCII portion). -/
def pyIsSpace (c : Char) : Bool :=
  c = ' ' || c = '\t' || c = '\n' || c = '\r' || c = '\x0b' || c = '\x0c'

/-- Python `str.strip()`: remove leading and trailing whitespace. -/
def strip (cs : List Char) : List Char :=
  ((cs.dropWhile pyIsSpace).reverse.dropWhile pyIsSpace).reverse

/-- Convenience conversion from a string literal. -/
def chars (x : String) : List Char := x.toList

/-- Line terminators recognised by Python `str.splitlines`. -/
def isLineBreak (c : Char) : Bool :=
  c = '\n' || c = '\r' || c = '\x0b' || c = '\x0c' || c = '\x1c' ||
  c = '\x1d' || c = '\x1e' || c = '\x85' || c = '\u2028' || c = '\u2029'

/-- Worker for `splitLines`; `acc` holds the current line reversed. -/
def splitLinesGo (acc : List Char) : List Char → List (List Char)
  | [] => if acc.isEmpty then [] else [acc.reverse]
  | '\r' :: '\n' :: rest => acc.reverse :: splitLinesGo [] rest
  | c :: rest =>
    if isLineBreak c then acc.reverse :: splitLinesGo [] rest
    else splitLinesGo (c :: acc) rest

/-- Python `str.splitlines()`  (`text.splitlines()` in `extract_from_pdf`). -/
def splitLines (cs : List Char) : List (List Char) := splitLinesGo [] cs

/-- Substring containment, as used by `re.search` on a plain-text
alternation such as `STOP_RE`. -/
def hasSub (pat : List Char) : List Char → Bool
  | [] => pat.isEmpty
  | c :: rest => pat.isPrefixOf (c :: rest) || hasSub pat rest

/-- `re.search` position scan: leftmost index at which the matcher `p`
succeeds on the corresponding suffix. -/
def searchIdx (p : List Char → Bool) : List Char → Option Nat
  | [] => none
  | c :: rest => if p (c :: rest) then some 0 else (searchIdx p rest).map (· + 1)

/-- `DATE_RE = \d{2}\.\d{2}\.\d{4}` tested at the head of the suffix. -/
def matchDateAt : List Char → Bool
  | c0 :: c1 :: c2 :: c3 :: c4 :: c5 :: c6 :: c7 :: c8 :: c9 :: _ =>
    c0.isDigit && c1.isDigit && c2 = '.' && c3.isDigit && c4.isDigit &&
    c5 = '.' && c6.isDigit && c7.isDigit && c8.isDigit && c9.isDigit
  | _ => false

/-- Length of the maximal run of digits at the head. -/
def countDigits : List Char → Nat
  | c :: rest => if c.isDigit then countDigits rest + 1 else 0
  | [] => 0

/-- Length of the maximal run of whitespace at the head (the greedy
`\s*` of `AMOUNT_RE`). -/
def countSpaces : List Char → Nat
  | c :: rest => if pyIsSpace c then countSpaces rest + 1 else 0
  | [] => 0

/-- Tail of `AMOUNT_RE` after the integer part: `,\d{2}\s*€?`.
Returns the number of characters consumed. -/
def matchTail (cs : List Char) : Option Nat :=
  match cs with
  | ',' :: a :: b :: rest =>
    if a.isDigit && b.isDigit then
      let w := countSpaces rest
      match rest.drop w with
      | '€' :: _ => some (3 + w + 1)
      | _ => some (3 + w)
    else none
  | _ => none

/-- Greedy `(?:\.\d{3})*` of `AMOUNT_RE` followed by `matchTail`, with
Python-style backtracking (maximal repetitions tried first). -/
def matchStar : List Char → Option Nat
  | '.' :: a :: b :: c :: rest =>
    if a.isDigit && b.isDigit && c.isDigit then
      match matchStar rest with
      | some n => some (4 + n)
      | none => matchTail ('.' :: a :: b :: c :: rest)
    else matchTail ('.' :: a :: b :: c :: rest)
  | cs => matchTail cs

/-- Greedy `\d{1,3}` of `AMOUNT_RE`: try `k` digits for `k` from the
given bound (at most 3, at most the digits available) down to 1,
continuing with `matchStar`. -/
def tryDigitsFrom (cs : List Char) : Nat → Option Nat
  | 0 => none
  | k + 1 =>
    match matchStar (cs.drop (k + 1)) with
    | some n => some (k + 1 + n)
    | none => tryDigitsFrom cs k

/-- `AMOUNT_RE = [-+]?\d{1,3}(?:\.\d{3})*,\d{2}\s*€?` tested at the
head of the suffix; returns the length of the match. -/
def matchAmountAt : List Char → Option Nat
  | [] => none
  | c :: rest =>
    if c = '-' || c = '+' then
      (tryDigitsFrom rest (min 3 (countDigits rest))).map (· + 1)
    else
      tryDigitsFrom (c :: rest) (min 3 (countDigits (c :: rest)))

/-- Head matcher for `AMOUNT_RE` as a Boolean (used by `searchIdx`). -/
def amountAtSome (cs : List Char) : Bool := (matchAmountAt cs).isSome

/-- `AMOUNT_RE.finditer`: non-overlapping matches `(start, length)`
scanning left to right; after a match the scan resumes at its end
(`skip` counts positions still to be skipped). -/
def findAllGo : List Char → Nat → Nat → List (Nat × Nat)
  | [], _, _ => []
  | _ :: rest, i, skip + 1 => findAllGo rest (i + 1) skip
  | c :: rest, i, 0 =>
    match matchAmountAt (c :: rest) with
    | some n => (i, n) :: findAllGo rest (i + 1) (max n 1 - 1)
    | none => findAllGo rest (i + 1) 0

/-- `list(AMOUNT_RE.finditer(line))`. -/
def amountFindAll (cs : List Char) : List (Nat × Nat) := findAllGo cs 0 0

/-- Lowercasing used to model `re.IGNORECASE` (ASCII plus the German
capital umlauts occurring in `TRANSACTION_TYPE_RE`). -/
def lowerPy (c : Char) : Char :=
  if c = 'Ä' then 'ä' else if c = 'Ö' then 'ö' else if c = 'Ü' then 'ü'
  else c.toLower

/-- Alternatives of `TRANSACTION_TYPE_RE`, lowercased. -/
def kwList : List (List Char) :=
  [chars "lastschrift", chars "überweisung", chars "gutschrift",
   chars "belastung", chars "dauerauftrag"]

/-- Does one of the transaction-type keywords start at the head? -/
def kwAtHead (cs : List Char) : Bool := kwList.any (fun k => k.isPrefixOf cs)

/-- `TRANSACTION_TYPE_RE.search(line).start()`: leftmost start index of
a case-insensitive keyword occurrence. -/
def txTypeIdx (cs : List Char) : Option Nat := searchIdx kwAtHead (cs.map lowerPy)

/-- `DATE_RE.search(line)` succeeds. -/
def dateFound (cs : List Char) : Bool := (searchIdx matchDateAt cs).isSome

/-- `AMOUNT_RE.search(line)` succeeds. -/
def amountFound (cs : List Char) : Bool := (searchIdx amountAtSome cs).isSome

/-- Line-90 condition of `extract_from_pdf`:
`DATE_RE.search(line) and AMOUNT_RE.search(line)`. -/
def startsTx (cs : List Char) : Bool := dateFound cs && amountFound cs

/-- `STOP_RE = (Zinsertrag|Neuer Saldo)` searched in the line. -/
def stopSearch (cs : List Char) : Bool :=
  hasSub (chars "Zinsertrag") cs || hasSub (chars "Neuer Saldo") cs

/-- The in-progress transaction of the text-mode loop: the five-element
list `[date, vorgang_referenz, auftraggeber, buchungstext, amount]`
built at lines 124-130 of `src/main.py`, as a record. -/
structure Tx where
  date : List Char
  vorgangReferenz : List Char
  auftraggeber : List Char
  buchungstext : List Char
  amount : List Char
deriving DecidableEq

/-- The five-element row appended to `page_rows`. -/
def Tx.toRow (t : Tx) : List (List Char) :=
  [t.date, t.vorgangReferenz, t.auftraggeber, t.buchungstext, t.amount]

/-- Python `str.replace(pat, "", 1)`: delete the leftmost occurrence of
`pat`. -/
def removeFirst (pat : List Char) : List Char → List Char
  | [] => []
  | c :: rest =>
    if pat.isPrefixOf (c :: rest) then (c :: rest).drop pat.length
    else c :: removeFirst pat rest

/-- Lines 96-130 of `extract_from_pdf`: build the new transaction from
a line that passed the date-and-amount test. -/
def mkTx (line : List Char) : Tx :=
  let date := match searchIdx matchDateAt line with
    | some i => (line.drop i).take 10
    | none => []
  let am := amountFindAll line
  let amount := match am.getLast? with
    | some m => (line.drop m.1).take m.2
    | none => []
  let vorgang := match txTypeIdx line with
    | some t =>
      let astart := match am.getLast? with
        | some m => m.1
        | none => line.length
      strip ((line.drop t).take (astart - t))
    | none => []
  let remaining := [date, amount, vorgang].foldl
    (fun acc pat => if pat = [] then acc else removeFirst pat acc) line
  { date := date, vorgangReferenz := vorgang, auftraggeber := strip remaining,
    buchungstext := [], amount := amount }

/-- Lines 132-138: append a continuation line to `buchungstext`. -/
def appendLine (t : Tx) (line : List Char) : Tx :=
  if t.buchungstext ≠ [] then
    { t with buchungstext := t.buchungstext ++ ' ' :: line }
  else
    { t with buchungstext := line }

/-- Finalisation of the open transaction (appending it to `page_rows`). -/
def emitSt : Option Tx → List (List (List Char))
  | some t => [t.toRow]
  | none => []

/-- Lines 132-138 as a state update: a line that neither stops nor
starts a transaction extends the open transaction's `buchungstext`
when it is non-empty (`elif current_transaction and line:`), and is
otherwise ignored. -/
def contStep (st : Option Tx) (line : List Char) : Option Tx :=
  match st with
  | some t => if line ≠ [] then some (appendLine t line) else some t
  | none => none

/-- Lines 82-142: the text-mode line loop of `extract_from_pdf` for one
page, started with `current_transaction = None` and emitting any open
transaction when the page's lines are exhausted or a stop line is hit. -/
def runMachine : List (List Char) → Option Tx → List (List (List Char))
  | [], st => emitSt st
  | l :: ls, st =>
    let line := strip l
    if stopSearch line then emitSt st
    else if startsTx line then emitSt st ++ runMachine ls (some (mkTx line))
    else runMachine ls (contStep st line)

/-- `str(cell) if cell else ""` for a table cell. -/
def cellText : Option (List Char) → List Char
  | some c => if c = [] then [] else c
  | none => []

/-- `" ".join(...)`. -/
def joinSpace : List (List Char) → List Char
  | [] => []
  | [x] => x
  | x :: y :: xs => x ++ ' ' :: joinSpace (y :: xs)

/-- Line 65: `row_text = " ".join(str(cell) if cell else "" for cell in row)`. -/
def rowText (row : List (Option (List Char))) : List Char :=
  joinSpace (row.map cellText)

/-- Line 70: `str(cell).strip() if cell else ""`. -/
def cleanCell : Option (List Char) → List Char
  | some c => if c = [] then [] else strip c
  | none => []

/-- Lines 63-71: the table-mode row classifier.  A row is accepted when
it has at least 4 cells and the concatenated cell text contains both a
date and an amount; the first 5 cells are then kept, trimmed. -/
def acceptRow (row : List (Option (List Char))) : Option (List (List Char)) :=
  if row ≠ [] ∧ 4 ≤ row.length then
    if dateFound (rowText row) && amountFound (rowText row) then
      some ((row.take 5).map cleanCell)
    else none
  else none

/-- Accepted rows of one extracted table, in order. -/
def tableRows (table : List (List (Option (List Char)))) : List (List (List Char)) :=
  table.filterMap acceptRow

/-- Lines 61-71: accepted rows over all tables of a page. -/
def acceptedTableRows : List (List (List (Option (List Char)))) → List (List (List Char))
  | [] => []
  | t :: ts => tableRows t ++ acceptedTableRows ts

/-- Lines 74-142: text-mode fallback for a page.  `none` models a page
whose text extraction raised (the `except` branch skips the page). -/
def textFallback : Option (List Char) → List (List (List Char))
  | none => []
  | some txt => runMachine (splitLines txt) none

/-- One page as seen by `extract_from_pdf`: the tables returned by
`page.extract_tables()` and the text returned by `page.extract_text()`
(`none` when text extraction raises). -/
structure Page where
  tables : List (List (List (Option (List Char))))
  text : Option (List Char)

/-- Lines 55-145 for a single page: table mode first; when it accepts
no row, the text-mode fallback runs on the same page. -/
def pageRows (p : Page) : List (List (List Char)) :=
  let tr := acceptedTableRows p.tables
  if tr = [] then textFallback p.text else tr

/-- The whole per-document loop of `extract_from_pdf`: pages processed
in order, each page's rows appended to the result. -/
def extractDoc : List Page → List (List (List Char))
  | [] => []
  | p :: ps => pageRows p ++ extractDoc ps

/-- Lines 263-268 of `main`: pad a row with empty strings up to 5
fields, then keep the first 5. -/
def normalizeRow (row : List (List Char)) : List (List Char) :=
  (row ++ List.replicate (5 - row.length) []).take 5

/-- Lines 263-270 of `main`: the row written to the CSV, with the
optional filename column appended by the caller. -/
def outRow (row : List (List Char)) : Option (List Char) → List (List Char)
  | some f => normalizeRow row ++ [f]
  | none => normalizeRow row

/-- The rows `main` writes for one document (without `--add-filename`). -/
def finalRows (pages : List Page) : List (List (List Char)) :=
  (extractDoc pages).map normalizeRow

/-! Helper lemmas about the search and finditer embeddings. -/

theorem searchIdx_spec (p : List Char → Bool) :
    ∀ (cs : List Char) (i : Nat), searchIdx p cs = some i →
      p (cs.drop i) = true ∧ ∀ j, j < i → p (cs.drop j) = false := by
  intro cs
  induction cs with
  | nil => intro i h; simp [searchIdx] at h
  | cons c rest ih =>
    intro i h
    simp only [searchIdx] at h
    cases hp : p (c :: rest) with
    | true =>
      rw [hp] at h
      simp only [if_true] at h
      cases h
      exact ⟨hp, fun j hj => absurd hj (Nat.not_lt_zero j)⟩
    | false =>
      rw [hp] at h
      simp only [Bool.false_eq_true, if_false] at h
      rcases Option.map_eq_some'.mp h with ⟨i', hi', rfl⟩
      obtain ⟨h1, h2⟩ := ih i' hi'
      refine ⟨by simpa using h1, ?_⟩
      intro j hj
      cases j with
      | zero => simpa using hp
      | succ j' =>
        rw [List.drop_succ_cons]
        exact h2 j' (by omega)

theorem searchIdx_isSome_of_exists (p : List Char → Bool) (hnil : p [] = false) :
    ∀ cs : List Char, (∃ j, p (cs.drop j) = true) → (searchIdx p cs).isSome = true := by
  intro cs
  induction cs with
  | nil =>
    rintro ⟨j, hj⟩
    rw [List.drop_nil] at hj
    rw [hnil] at hj
    cases hj
  | cons c rest ih =>
    rintro ⟨j, hj⟩
    simp only [searchIdx]
    cases hp : p (c :: rest) with
    | true => simp
    | false =>
      simp only [Bool.false_eq_true, if_false]
      cases j with
      | zero => rw [List.drop_zero] at hj; rw [hp] at hj; cases hj
      | succ j' =>
        rw [List.drop_succ_cons] at hj
        rcases Option.isSome_iff_exists.mp (ih ⟨j', hj⟩) with ⟨a, ha⟩
        simp [ha]

theorem exists_of_searchIdx_isSome (p : List Char → Bool) (cs : List Char)
    (h : (searchIdx p cs).isSome = true) : ∃ j, p (cs.drop j) = true := by
  rcases Option.isSome_iff_exists.mp h with ⟨i, hi⟩
  exact ⟨i, (searchIdx_spec p cs i hi).1⟩

theorem mem_of_getLast?_eq {α : Type} :
    ∀ (l : List α) (a : α), l.getLast? = some a → a ∈ l := by
  intro l
  induction l with
  | nil => intro a h; simp at h
  | cons x xs ih =>
    intro a h
    cases xs with
    | nil => simp at h; simp [h]
    | cons y ys =>
      rw [List.getLast?_cons_cons] at h
      exact List.mem_cons_of_mem x (ih a h)

theorem exists_getLast?_of_ne_nil {α : Type} :
    ∀ l : List α, l ≠ [] → ∃ a, l.getLast? = some a := by
  intro l
  induction l with
  | nil => intro h; exact absurd rfl h
  | cons x xs ih =>
    intro _
    cases xs with
    | nil => exact ⟨x, rfl⟩
    | cons y ys =>
      rcases ih (List.cons_ne_nil y ys) with ⟨a, ha⟩
      exact ⟨a, by rw [List.getLast?_cons_cons]; exact ha⟩

theorem getLast?_cons_of_ne_nil {α : Type} (x : α) (l : List α) (h : l ≠ []) :
    (x :: l).getLast? = l.getLast? := by
  cases l with
  | nil => exact absurd rfl h
  | cons y ys => exact List.getLast?_cons_cons

theorem findAllGo_mem :
    ∀ (cs : List Char) (i k : Nat) (q : Nat × Nat), q ∈ findAllGo cs i k →
      i ≤ q.1 ∧ matchAmountAt (cs.drop (q.1 - i)) = some q.2 := by
  intro cs
  induction cs with
  | nil => intro i k q h; simp [findAllGo] at h
  | cons c rest ih =>
    intro i k q h
    match k with
    | skip + 1 =>
      simp only [findAllGo] at h
      obtain ⟨h1, h2⟩ := ih (i + 1) skip q h
      refine ⟨by omega, ?_⟩
      have hq : q.1 - i = (q.1 - (i + 1)) + 1 := by omega
      rw [hq, List.drop_succ_cons]
      exact h2
    | 0 =>
      simp only [findAllGo] at h
      split at h
      case h_1 n hm =>
        rcases List.mem_cons.mp h with hq | hq
        · subst hq
          simpa using hm
        · obtain ⟨h1, h2⟩ := ih (i + 1) _ q hq
          refine ⟨by omega, ?_⟩
          have hq1 : q.1 - i = (q.1 - (i + 1)) + 1 := by omega
          rw [hq1, List.drop_succ_cons]
          exact h2
      case h_2 hm =>
        obtain ⟨h1, h2⟩ := ih (i + 1) 0 q h
        refine ⟨by omega, ?_⟩
        have hq1 : q.1 - i = (q.1 - (i + 1)) + 1 := by omega
        rw [hq1, List.drop_succ_cons]
        exact h2

theorem findAllGo_last_max :
    ∀ (cs : List Char) (i k : Nat) (m : Nat × Nat),
      (findAllGo cs i k).getLast? = some m →
      ∀ q ∈ findAllGo cs i k, q.1 ≤ m.1 := by
  intro cs
  induction cs with
  | nil => intro i k m hm; simp [findAllGo] at hm
  | cons c rest ih =>
    intro i k m hm q hq
    match k with
    | skip + 1 =>
      simp only [findAllGo] at hm hq
      exact ih (i + 1) skip m hm q hq
    | 0 =>
      simp only [findAllGo] at hm hq
      cases hmn : matchAmountAt (c :: rest) with
      | some n =>
        simp only [hmn] at hm hq
        by_cases hL : findAllGo rest (i + 1) (max n 1 - 1) = []
        · rw [hL] at hm hq
          simp at hm hq
          simp [hm, hq]
        · rw [getLast?_cons_of_ne_nil _ _ hL] at hm
          have hmem := mem_of_getLast?_eq _ _ hm
          have hmge := (findAllGo_mem rest (i + 1) _ m hmem).1
          rcases List.mem_cons.mp hq with hq1 | hq1
          · subst hq1; exact Nat.le_trans (Nat.le_succ i) hmge
          · exact ih (i + 1) _ m hm q hq1
      | none =>
        simp only [hmn] at hm hq
        exact ih (i + 1) 0 m hm q hq

theorem searchIdx_none_of_findAllGo_nil :
    ∀ (cs : List Char) (i : Nat), findAllGo cs i 0 = [] →
      searchIdx amountAtSome cs = none := by
  intro cs
  induction cs with
  | nil => intro i _; rfl
  | cons c rest ih =>
    intro i h
    simp only [findAllGo] at h
    split at h
    case h_1 n hm => cases h
    case h_2 hm =>
      have := ih (i + 1) h
      simp [searchIdx, amountAtSome, hm, this]

theorem findAll_ne_nil_of_found (cs : List Char) (h : amountFound cs = true) :
    amountFindAll cs ≠ [] := by
  intro hnil
  rw [amountFound, searchIdx_none_of_findAllGo_nil cs 0 hnil] at h
  cases h

theorem tryDigitsFrom_pos (cs : List Char) :
    ∀ (k n : Nat), tryDigitsFrom cs k = some n → 1 ≤ n := by
  intro k
  induction k with
  | zero => intro n h; simp [tryDigitsFrom] at h
  | succ k ih =>
    intro n h
    simp only [tryDigitsFrom] at h
    split at h
    · cases h; omega
    · exact ih n h

theorem matchAmountAt_pos (cs : List Char) (n : Nat) (h : matchAmountAt cs = some n) :
    1 ≤ n ∧ cs ≠ [] := by
  cases cs with
  | nil => simp [matchAmountAt] at h
  | cons c rest =>
    refine ⟨?_, by simp⟩
    simp only [matchAmountAt] at h
    split at h
    · rcases Option.map_eq_some'.mp h with ⟨n', hn', rfl⟩
      omega
    · exact tryDigitsFrom_pos _ _ _ h

theorem mkTx_date (line : List Char) (i : Nat)
    (h : searchIdx matchDateAt line = some i) :
    (mkTx line).date = (line.drop i).take 10 := by
  simp [mkTx, h]

theorem mkTx_amount (line : List Char) (m : Nat × Nat)
    (h : (amountFindAll line).getLast? = some m) :
    (mkTx line).amount = (line.drop m.1).take m.2 := by
  simp [mkTx, h]

theorem mkTx_good (line : List Char) (h : startsTx line = true) :
    (mkTx line).date ≠ [] ∧ (mkTx line).amount ≠ [] := by
  simp only [startsTx, dateFound, amountFound, Bool.and_eq_true] at h
  obtain ⟨h1, h2⟩ := h
  constructor
  · rcases Option.isSome_iff_exists.mp h1 with ⟨i, hi⟩
    have hmatch := (searchIdx_spec matchDateAt line i hi).1
    have hne : line.drop i ≠ [] := by
      intro he
      rw [he] at hmatch
      cases hmatch
    rw [mkTx_date line i hi]
    simp [List.take_eq_nil_iff, hne]
  · have hfa : amountFindAll line ≠ [] :=
      findAll_ne_nil_of_found line (by simpa [amountFound] using h2)
    rcases exists_getLast?_of_ne_nil _ hfa with ⟨m, hm⟩
    have hmem := mem_of_getLast?_eq _ _ hm
    have hmatch := (findAllGo_mem line 0 0 m hmem).2
    rw [Nat.sub_zero] at hmatch
    obtain ⟨hpos, hne⟩ := matchAmountAt_pos _ _ hmatch
    rw [mkTx_amount line m hm]
    simp [List.take_eq_nil_iff, hne]
    omega

theorem appendLine_fields (t : Tx) (l : List Char) :
    (appendLine t l).date = t.date ∧ (appendLine t l).amount = t.amount := by
  unfold appendLine
  split <;> exact ⟨rfl, rfl⟩

theorem emitSt_good (st : Option Tx)
    (hst : ∀ t, st = some t → t.date ≠ [] ∧ t.amount ≠ []) :
    ∀ r ∈ emitSt st, r.getD 0 [] ≠ [] ∧ r.getD 4 [] ≠ [] := by
  cases st with
  | none => intro r hr; simp [emitSt] at hr
  | some t =>
    intro r hr
    simp only [emitSt, List.mem_singleton] at hr
    subst hr
    obtain ⟨h1, h2⟩ := hst t rfl
    simpa [Tx.toRow] using ⟨h1, h2⟩

theorem contStep_good (st : Option Tx) (line : List Char)
    (hst : ∀ t, st = some t → t.date ≠ [] ∧ t.amount ≠ []) :
    ∀ t, contStep st line = some t → t.date ≠ [] ∧ t.amount ≠ [] := by
  intro t ht
  cases st with
  | none => simp [contStep] at ht
  | some t0 =>
    obtain ⟨h1, h2⟩ := hst t0 rfl
    simp only [contStep] at ht
    split at ht
    · injection ht with ht
      subst ht
      obtain ⟨e1, e2⟩ := appendLine_fields t0 line
      rw [e1, e2]
      exact ⟨h1, h2⟩
    · injection ht with ht
      subst ht
      exact ⟨h1, h2⟩

theorem contStep_some (t0 : Tx) (line : List Char) :
    ∃ t, contStep (some t0) line = some t := by
  simp only [contStep]
  split
  · exact ⟨_, rfl⟩
  · exact ⟨t0, rfl⟩

theorem runMachine_stop_truncates :
    ∀ (ls : List (List Char)) (st : Option Tx),
      runMachine ls st
        = runMachine (ls.takeWhile (fun l => !stopSearch (strip l))) st := by
  intro ls
  induction ls with
  | nil => intro st; rfl
  | cons l ls ih =>
    intro st
    by_cases hstop : stopSearch (strip l) = true
    · simp [runMachine, List.takeWhile_cons, hstop]
    · have hs : stopSearch (strip l) = false := by simpa using hstop
      by_cases hst : startsTx (strip l) = true
      · simp [runMachine, List.takeWhile_cons, hs, hst, ih]
      · have hst' : startsTx (strip l) = false := by simpa using hst
        simp [runMachine, List.takeWhile_cons, hs, hst', ih]

theorem runMachine_some_ne_nil :
    ∀ (ls : List (List Char)) (tx : Tx), runMachine ls (some tx) ≠ [] := by
  intro ls
  induction ls with
  | nil => intro tx; simp [runMachine, emitSt]
  | cons l ls ih =>
    intro tx
    by_cases hstop : stopSearch (strip l) = true
    · simp [runMachine, hstop, emitSt]
    · have hs : stopSearch (strip l) = false := by simpa using hstop
      by_cases hst : startsTx (strip l) = true
      · simp [runMachine, hs, hst, emitSt]
      · have hst' : startsTx (strip l) = false := by simpa using hst
        rcases contStep_some tx (strip l) with ⟨t', ht'⟩
        simp [runMachine, hs, hst', ht', ih]

/-! Claim theorems. -/

/-- C1 counterexample: a document whose first page hits the stop line
"Neuer Saldo" still yields the record of a transaction line on the
second page, so a record derived from a line appearing after a
stop-pattern line does appear in the output. -/
theorem c1_counterexample :
    extractDoc
      [{ tables := [], text := some (chars "Neuer Saldo") },
       { tables := [], text := some (chars "01.02.2024 Miete 1,00") }]
      = [[chars "01.02.2024", [], chars "Miete", [], chars "1,00"]] := by
  decide

/-- C1 (amended): matching the stop pattern terminates reconstruction
only for the remaining lines of the current page — processing a page's
lines equals processing the prefix before the first stop line — while
the document loop still processes every later page. -/
theorem c1_stop_page_local :
    (∀ (ls : List (List Char)) (st : Option Tx),
        runMachine ls st
          = runMachine (ls.takeWhile (fun l => !stopSearch (strip l))) st)
    ∧ ∀ (p : Page) (ps : List Page),
        extractDoc (p :: ps) = pageRows p ++ extractDoc ps :=
  ⟨runMachine_stop_truncates, fun _ _ => rfl⟩

/-- C2 counterexample: in the line " xx 01.02.2024 1,00" the first
date occurrence is not at the start of the trimmed line, yet the line
opens a record, refuting the anchored-only-if direction of the claim. -/
theorem c2_counterexample :
    runMachine [chars " xx 01.02.2024 1,00"] none
        = [[chars "01.02.2024", [], chars "xx", [], chars "1,00"]]
      ∧ matchDateAt (strip (chars " xx 01.02.2024 1,00")) = false := by
  decide

/-- C2 (amended): a trimmed line begins a new record iff the date
pattern matches anywhere in it and an amount pattern matches anywhere
in it; the date occurrence need not be at the start of the line. -/
theorem c2_start_condition_unanchored (line : List Char) :
    startsTx line = true ↔
      (∃ i, matchDateAt (line.drop i) = true)
        ∧ ∃ j, (matchAmountAt (line.drop j)).isSome = true := by
  constructor
  · intro h
    simp only [startsTx, dateFound, amountFound, Bool.and_eq_true] at h
    obtain ⟨h1, h2⟩ := h
    refine ⟨exists_of_searchIdx_isSome _ _ h1, ?_⟩
    rcases exists_of_searchIdx_isSome _ _ h2 with ⟨j, hj⟩
    exact ⟨j, by simpa [amountAtSome] using hj⟩
  · rintro ⟨⟨i, hi⟩, ⟨j, hj⟩⟩
    simp only [startsTx, dateFound, amountFound, Bool.and_eq_true]
    exact ⟨searchIdx_isSome_of_exists _ rfl _ ⟨i, hi⟩,
      searchIdx_isSome_of_exists _ rfl _ ⟨j, by simpa [amountAtSome] using hj⟩⟩

/-- C3 counterexample: on the Scenario A line the code yields
`operationReference = "Überweisung Max Mustermann"` (keyword start to
amount start) and `counterparty = ""`, not the record asserted by the
claim. -/
theorem c3_counterexample :
    runMachine [chars "01.02.2024 Überweisung Max Mustermann 123,45"] none
        = [[chars "01.02.2024", chars "Überweisung Max Mustermann", [], [],
            chars "123,45"]]
      ∧ runMachine [chars "01.02.2024 Überweisung Max Mustermann 123,45"] none
          ≠ [[chars "01.02.2024", chars "Überweisung", chars "Max Mustermann",
              [], chars "123,45"]] := by
  decide

/-- C3 (amended): the single line produces exactly one record with
date "01.02.2024", operationReference "Überweisung Max Mustermann",
counterparty "", description "", amount "123,45". -/
theorem c3_scenario_a_record :
    runMachine [chars "01.02.2024 Überweisung Max Mustermann 123,45"] none
      = [[chars "01.02.2024", chars "Überweisung Max Mustermann", [], [],
          chars "123,45"]] := by
  decide

/-- C4 counterexample: a record opened on page 1 is finalized at the
end of page 1 with an empty description; the non-matching first line
of page 2 is not appended to it, refuting cross-page accumulation. -/
theorem c4_counterexample :
    extractDoc
      [{ tables := [], text := some (chars "01.02.2024 Miete 1,00") },
       { tables := [], text := some (chars "Zahlungsreferenz ABC") }]
      = [[chars "01.02.2024", [], chars "Miete", [], chars "1,00"]] := by
  decide

/-- C4 (amended): the open record does not persist across pages: each
text page starts with no open record, and a record still open when a
page's lines are exhausted is finalized then (the machine always emits
at least one record from an open state). -/
theorem c4_page_local_state :
    (∀ (t : List Char) (ps : List Page),
        extractDoc ({ tables := [], text := some t } :: ps)
          = runMachine (splitLines t) none ++ extractDoc ps)
    ∧ ∀ (ls : List (List Char)) (tx : Tx), runMachine ls (some tx) ≠ [] :=
  ⟨fun _ _ => rfl, runMachine_some_ne_nil⟩

/-- C5 (confirmed): a line that opens a record with several amount
matches takes as `amount` the text of the last `finditer` match, and
that match's start position is maximal among all matches on the line. -/
theorem c5_rightmost_amount (line : List Char) (h : startsTx line = true)
    (h2 : 2 ≤ (amountFindAll line).length) :
    ∃ m, (amountFindAll line).getLast? = some m
      ∧ (mkTx line).amount = (line.drop m.1).take m.2
      ∧ ∀ q ∈ amountFindAll line, q.1 ≤ m.1 := by
  have hne : amountFindAll line ≠ [] := by
    intro he
    rw [he] at h2
    simp at h2
  rcases exists_getLast?_of_ne_nil _ hne with ⟨m, hm⟩
  exact ⟨m, hm, mkTx_amount line m hm, findAllGo_last_max line 0 0 m hm⟩

/-- C5 witness: the line "01.02.2024 11,11 22,22" has two amount
matches and the record's amount is the rightmost one, "22,22". -/
theorem c5_rightmost_amount_witness :
    startsTx (chars "01.02.2024 11,11 22,22") = true
      ∧ 2 ≤ (amountFindAll (chars "01.02.2024 11,11 22,22")).length
      ∧ (∃ m, (amountFindAll (chars "01.02.2024 11,11 22,22")).getLast? = some m
          ∧ (mkTx (chars "01.02.2024 11,11 22,22")).amount
              = ((chars "01.02.2024 11,11 22,22").drop m.1).take m.2
          ∧ ∀ q ∈ amountFindAll (chars "01.02.2024 11,11 22,22"), q.1 ≤ m.1)
      ∧ (mkTx (chars "01.02.2024 11,11 22,22")).amount = chars "22,22" :=
  ⟨by decide, by decide, c5_rightmost_amount _ (by decide) (by decide), by decide⟩

/-- C6 (confirmed): per page, if the table classifier accepts at least
one row those rows are the page's output (for any page text, so text
mode cannot contribute), and if it accepts none the text-mode fallback
runs on that page. -/
theorem c6_mode_exclusive (tbls : List (List (List (Option (List Char)))))
    (t : Option (List Char)) :
    (acceptedTableRows tbls ≠ [] →
        pageRows { tables := tbls, text := t } = acceptedTableRows tbls)
    ∧ (acceptedTableRows tbls = [] →
        pageRows { tables := tbls, text := t } = textFallback t) := by
  constructor
  · intro h
    simp [pageRows, h]
  · intro h
    simp [pageRows, h]

/-- C6 witness: a page with one accepted table row ignores its text (a
valid transaction line), and a page with no tables falls back to text
mode. -/
theorem c6_mode_exclusive_witness :
    acceptedTableRows [[[some (chars "01.02.2024"), some (chars "a"),
        some (chars "b"), some (chars "123,45")]]] ≠ []
      ∧ pageRows { tables := [[[some (chars "01.02.2024"), some (chars "a"),
                     some (chars "b"), some (chars "123,45")]]],
                   text := some (chars "03.04.2025 zz 9,99") }
          = acceptedTableRows [[[some (chars "01.02.2024"), some (chars "a"),
              some (chars "b"), some (chars "123,45")]]]
      ∧ acceptedTableRows ([] : List (List (List (Option (List Char))))) = []
      ∧ pageRows { tables := [], text := some (chars "03.04.2025 zz 9,99") }
          = textFallback (some (chars "03.04.2025 zz 9,99")) :=
  ⟨by decide,
   (c6_mode_exclusive _ _).1 (by decide),
   by decide,
   (c6_mode_exclusive _ _).2 (by decide)⟩

/-- C7 counterexample: an accepted 4-cell table row yields a finalized
output record whose amount field (index 4, padded by `main`) is the
empty string, refuting the claim for table mode. -/
theorem c7_counterexample :
    finalRows
      [{ tables := [[[some (chars "01.02.2024"), some (chars "Überweisung"),
          some (chars "Max"), some (chars "123,45")]]], text := none }]
      = [[chars "01.02.2024", chars "Überweisung", chars "Max",
          chars "123,45", []]] := by
  decide

/-- C7 (amended): in text mode the invariant does hold: starting from
no open record (or any open record with non-empty date and amount),
every record the line machine emits has a non-empty date field (index
0) and a non-empty amount field (index 4). -/
theorem c7_text_mode_nonempty :
    ∀ (ls : List (List Char)) (st : Option Tx),
      (∀ t, st = some t → t.date ≠ [] ∧ t.amount ≠ []) →
      ∀ r ∈ runMachine ls st, r.getD 0 [] ≠ [] ∧ r.getD 4 [] ≠ [] := by
  intro ls
  induction ls with
  | nil =>
    intro st hst r hr
    exact emitSt_good st hst r hr
  | cons l ls ih =>
    intro st hst r hr
    simp only [runMachine] at hr
    by_cases hstop : stopSearch (strip l) = true
    · rw [if_pos hstop] at hr
      exact emitSt_good st hst r hr
    · rw [if_neg hstop] at hr
      by_cases hst2 : startsTx (strip l) = true
      · rw [if_pos hst2] at hr
        rcases List.mem_append.mp hr with hmem | hmem
        · exact emitSt_good st hst r hmem
        · refine ih _ ?_ r hmem
          intro t ht
          injection ht with ht
          subst ht
          exact mkTx_good _ hst2
      · rw [if_neg hst2] at hr
        exact ih _ (contStep_good st (strip l) hst) r hr

/-- C7 witness: the machine run on one transaction line emits a record
whose date and amount fields are non-empty. -/
theorem c7_text_mode_nonempty_witness :
    [chars "05.02.2024", chars "Lastschrift", [], [],
        chars "50,00"].getD 0 [] ≠ []
      ∧ [chars "05.02.2024", chars "Lastschrift", [], [],
          chars "50,00"].getD 4 [] ≠ [] :=
  c7_text_mode_nonempty [chars "05.02.2024 Lastschrift 50,00"] none
    (fun _ ht => nomatch ht)
    [chars "05.02.2024", chars "Lastschrift", [], [], chars "50,00"]
    (by decide)

/-- C8 (confirmed): a table row with fewer than 4 cells is rejected
regardless of its content. -/
theorem c8_short_row_rejected (row : List (Option (List Char)))
    (h : row.length < 4) : acceptRow row = none := by
  unfold acceptRow
  rw [if_neg]
  intro hcon
  exact absurd hcon.2 (by omega)

/-- C8 witness: a 3-cell row containing a date and an amount is still
rejected. -/
theorem c8_short_row_rejected_witness :
    [some (chars "01.02.2024"), some (chars "x"),
        some (chars "123,45")].length < 4
      ∧ acceptRow [some (chars "01.02.2024"), some (chars "x"),
          some (chars "123,45")] = none :=
  ⟨by decide, c8_short_row_rejected _ (by decide)⟩

/-- C9 (confirmed): the row written by `main` is the extracted row
padded with trailing empty strings to 5 fields and truncated to 5
fields, so its arity is exactly 5, or 6 with the filename column. -/
theorem c9_output_arity (row : List (List Char)) (f : List Char) :
    normalizeRow row = row.take 5 ++ List.replicate (5 - row.length) []
      ∧ (outRow row none).length = 5
      ∧ (outRow row (some f)).length = 6 := by
  have key : normalizeRow row
      = row.take 5 ++ List.replicate (5 - row.length) [] := by
    unfold normalizeRow
    rw [List.take_append_eq_append_take, List.take_replicate, Nat.min_self]
  refine ⟨key, ?_, ?_⟩ <;>
    simp [outRow, key, List.length_take, List.length_replicate] <;> omega

/-- C10 (confirmed): the record's date is the group of the leftmost
date-pattern match on the line: no earlier position matches. -/
theorem c10_first_date (line : List Char) (h : startsTx line = true) :
    ∃ i, searchIdx matchDateAt line = some i
      ∧ matchDateAt (line.drop i) = true
      ∧ (∀ j, j < i → matchDateAt (line.drop j) = false)
      ∧ (mkTx line).date = (line.drop i).take 10 := by
  simp only [startsTx, dateFound, amountFound, Bool.and_eq_true] at h
  rcases Option.isSome_iff_exists.mp h.1 with ⟨i, hi⟩
  obtain ⟨h1, h2⟩ := searchIdx_spec matchDateAt line i hi
  exact ⟨i, hi, h1, h2, mkTx_date line i hi⟩

/-- C10 witness: on a line with two dates the record's date is the
first one. -/
theorem c10_first_date_witness :
    startsTx (chars "01.02.2024 03.04.2025 1,00") = true
      ∧ (∃ i, searchIdx matchDateAt (chars "01.02.2024 03.04.2025 1,00") = some i
          ∧ matchDateAt ((chars "01.02.2024 03.04.2025 1,00").drop i) = true
          ∧ (∀ j, j < i →
              matchDateAt ((chars "01.02.2024 03.04.2025 1,00").drop j) = false)
          ∧ (mkTx (chars "01.02.2024 03.04.2025 1,00")).date
              = ((chars "01.02.2024 03.04.2025 1,00").drop i).take 10)
      ∧ (mkTx (chars "01.02.2024 03.04.2025 1,00")).date = chars "01.02.2024" :=
  ⟨by decide, c10_first_date _ (by decide), by decide⟩
